import Mathlib

/-!
Verification development for the SudChat backend (TypeScript sources under
`backend/src`): the `fetch_url` tool executor, the `run_code` tool executor,
and the `/api/chat` agentic-loop endpoint.

The TypeScript is shallowly embedded: each effectful interaction with the
outside world (the network fetch, the child process, the scripted model
capability) is an explicit oracle value consumed by a pure Lean function that
mirrors the source control flow line by line.  JavaScript strings are modelled
as Lean `String`/`List Char`; the regex-based text pipeline of `fetchUrl` is
reimplemented as executable character scans with the same matching semantics
(leftmost, non-overlapping, lazy or greedy as the concrete regex dictates).
-/

set_option autoImplicit false

namespace SudChat

/-! ### Character-level string utilities

These model the JavaScript `String.prototype.replace(/…/g, …)` calls used in
`fetchUrl.ts`.  `isPrefixOfCL` is an exact (case-sensitive) literal prefix
test; `isPrefixCI` is the case-insensitive variant used for the
`/<script…/gi` and `/<style…/gi` regexes. -/

def isPrefixOfCL : List Char → List Char → Bool
  | [], _ => true
  | _ :: _, [] => false
  | p :: ps, c :: cs => p == c && isPrefixOfCL ps cs

def isPrefixCI : List Char → List Char → Bool
  | [], _ => true
  | _ :: _, [] => false
  | p :: ps, c :: cs => p == c.toLower && isPrefixCI ps cs

/-- Does `pat` occur (case-sensitively) as a contiguous substring? -/
def occurs (pat : List Char) : List Char → Bool
  | [] => isPrefixOfCL pat []
  | c :: rest => isPrefixOfCL pat (c :: rest) || occurs pat rest

/-- Fuel-indexed worker for global literal replacement, in the style of
JavaScript `s.replace(/pat/g, rep)` for a literal `pat`: scan left to right,
replace each non-overlapping occurrence.  The fuel is always instantiated to
the length of the scanned list, so the `0, s => s` clause is never hit with a
nonempty `s`. -/
def replAux (pat rep : List Char) : Nat → List Char → List Char
  | _, [] => []
  | 0, s => s
  | fuel + 1, c :: rest =>
    if !pat.isEmpty && isPrefixOfCL pat (c :: rest) then
      rep ++ replAux pat rep fuel ((c :: rest).drop pat.length)
    else
      c :: replAux pat rep fuel rest

def replaceAllCL (pat rep s : List Char) : List Char :=
  replAux pat rep s.length s

/-- JavaScript `\s` for the purposes of `/\s+/g` and `trim`: ASCII whitespace
plus NBSP and the Unicode space/line separators relevant to the source. -/
def isWsJS (c : Char) : Bool :=
  c == ' ' || c == '\t' || c == '\n' || c == '\r' ||
  c == Char.ofNat 11 || c == Char.ofNat 12 || c == Char.ofNat 0xa0 ||
  c == Char.ofNat 0x2028 || c == Char.ofNat 0x2029 || c == Char.ofNat 0xfeff

/-- Worker for `/\s+/g → ' '`: the flag records whether the previous character
was whitespace (so a run produces a single space). -/
def collapseGo : Bool → List Char → List Char
  | _, [] => []
  | prevWs, c :: rest =>
    if isWsJS c then
      if prevWs then collapseGo true rest else ' ' :: collapseGo true rest
    else
      c :: collapseGo false rest

def collapseWs (s : List Char) : List Char :=
  collapseGo false s

/-- JavaScript `String.prototype.trim` on the character list. -/
def trimCL (s : List Char) : List Char :=
  ((s.dropWhile isWsJS).reverse.dropWhile isWsJS).reverse

def jsTrim (s : String) : String :=
  String.mk (trimCL s.toList)

/-- Index (in `s`) of the first case-insensitive occurrence of `pat`. -/
def findCI (pat : List Char) : List Char → Option Nat
  | [] => if pat.isEmpty then some 0 else none
  | c :: rest =>
    if isPrefixCI pat (c :: rest) then some 0
    else (findCI pat rest).map (· + 1)

/-- Model of `raw.replace(/<open[\s\S]*?<\/close>/gi, '')` for the
script/style blocks: on a case-insensitive match of `openPat`, lazily search
for the first case-insensitive `closePat` and delete through its end; if no
closing pattern follows, the regex does not match at this position. -/
def stripBlocksAux (openPat closePat : List Char) : Nat → List Char → List Char
  | _, [] => []
  | 0, s => s
  | fuel + 1, c :: rest =>
    if isPrefixCI openPat (c :: rest) then
      match findCI closePat ((c :: rest).drop openPat.length) with
      | some n =>
          stripBlocksAux openPat closePat fuel
            ((c :: rest).drop (openPat.length + n + closePat.length))
      | none => c :: stripBlocksAux openPat closePat fuel rest
    else
      c :: stripBlocksAux openPat closePat fuel rest

def stripBlocks (openPat closePat s : List Char) : List Char :=
  stripBlocksAux openPat closePat s.length s

/-- Index of the first `'>'`. -/
def findGt : List Char → Option Nat
  | [] => none
  | c :: rest => if c == '>' then some 0 else (findGt rest).map (· + 1)

/-- Model of `raw.replace(/<[^>]+>/g, ' ')`: a `'<'` followed by at least one
non-`'>'` character up to the first `'>'` becomes a single space. -/
def stripTagsAux : Nat → List Char → List Char
  | _, [] => []
  | 0, s => s
  | fuel + 1, c :: rest =>
    if c == '<' then
      match findGt rest with
      | some 0 => c :: stripTagsAux fuel rest
      | some n => ' ' :: stripTagsAux fuel (rest.drop (n + 1))
      | none => c :: stripTagsAux fuel rest
    else
      c :: stripTagsAux fuel rest

def stripTags (s : List Char) : List Char :=
  stripTagsAux s.length s

/-! ### The entity-decoding pipeline of `fetchUrl.ts` lines 49–54 -/

def ampPat : List Char := "&amp;".toList
def ltPat : List Char := "&lt;".toList
def gtPat : List Char := "&gt;".toList
def quotPat : List Char := "&quot;".toList
def aposPat : List Char := "&#039;".toList
def nbspPat : List Char := "&nbsp;".toList

def decodeEntitiesCL (s : List Char) : List Char :=
  replaceAllCL nbspPat [' ']
    (replaceAllCL aposPat [Char.ofNat 39]
      (replaceAllCL quotPat ['"']
        (replaceAllCL gtPat ['>']
          (replaceAllCL ltPat ['<']
            (replaceAllCL ampPat ['&'] s)))))

/-- The entity decoder as a `String → String` function (the `decode` of the
specification). -/
def decodeEntities (s : String) : String :=
  String.mk (decodeEntitiesCL s.toList)

/-- True iff `l` still contains one of the six entity byte sequences. -/
def containsEntity (l : List Char) : Bool :=
  occurs ampPat l || occurs ltPat l || occurs gtPat l ||
  occurs quotPat l || occurs aposPat l || occurs nbspPat l

/-! ### fetchUrl (`backend/src/tools/fetchUrl.ts`) -/

def scriptOpen : List Char := "<script".toList
def scriptClose : List Char := "</script>".toList
def styleOpen : List Char := "<style".toList
def styleClose : List Char := "</style>".toList
def htmlCT : List Char := "text/html".toList

/-- Lines 45–56: the HTML branch of the content extraction. -/
def htmlPipeline (raw : List Char) : List Char :=
  trimCL
    (collapseWs
      (decodeEntitiesCL
        (stripTags
          (stripBlocks styleOpen styleClose
            (stripBlocks scriptOpen scriptClose raw)))))

/-- Lines 42–59: extracted `content` before the size cap, as a character
list.  The branch is chosen by `contentType.includes('text/html')`. -/
def extractChars (contentType body : String) : List Char :=
  if occurs htmlCT contentType.toList then htmlPipeline body.toList
  else trimCL body.toList

def truncMarker : List Char := "\n\n[Content truncated at 50,000 characters]".toList

def noContentSentinel : String := "No readable text content found on this page."

/-- Outcome of the `fetch` call as observed by `fetchUrl`'s `try` block: a
response (status, statusText, content-type header, body text), an abort of the
10-second timer (`AbortError`), any other thrown `Error` with its message, or
a thrown non-`Error` value. -/
inductive FetchOutcome where
  | success (status : Nat) (statusText : String) (contentType : String) (body : String)
  | timeout
  | failure (msg : String)
  | nonError
deriving DecidableEq

/-- Model of `fetchUrl` (lines 24–74).  `response.ok` is the fetch-standard
`200 ≤ status ≤ 299`.  Every outcome yields a string: the function never
throws. -/
def fetchUrlModel (o : FetchOutcome) : String :=
  match o with
  | .timeout => "Error: Request timed out after 10 seconds."
  | .failure msg => "Error fetching URL: " ++ msg
  | .nonError => "Error: Unknown error while fetching the URL."
  | .success status statusText contentType body =>
    if 200 ≤ status ∧ status ≤ 299 then
      let content := extractChars contentType body
      let content := if content.length > 50000 then content.take 50000 ++ truncMarker else content
      if content.isEmpty then noContentSentinel else String.mk content
    else
      "Error: HTTP " ++ toString status ++ " " ++ statusText

/-! ### runCode (`src/tools/runCode.ts`) -/

inductive Lang where
  | python
  | javascript
deriving DecidableEq

def langString : Lang → String
  | .python => "python"
  | .javascript => "javascript"

/-- The result record returned by `runCode` (lines 38–43). -/
structure CodeRunResult where
  exitCode : Int
  stdout : String
  stderr : String
  language : String
deriving DecidableEq

/-- Shape of the value caught from a failed `execAsync` (line 73): the
optional captured streams, the numeric exit code when Node supplies one
(`typeof e.code === 'number'`; string error codes and absent codes are
`none`), the `killed` flag set by the timeout, and the `String(err)`
rendering used when no stderr was captured. -/
structure ExecErr where
  stdout : Option String
  stderr : Option String
  code : Option Int
  killed : Bool
  asString : String
deriving DecidableEq

/-- Outcome of the child-process run: the promise resolves with the captured
streams, or rejects with an `ExecErr` (non-zero exit, timeout kill,
output-cap kill, or spawn failure). -/
inductive ExecOutcome where
  | ok (stdout stderr : String)
  | failed (e : ExecErr)
deriving DecidableEq

/-- The only file-system fact the claims need: whether the temporary file of
this invocation exists. -/
structure FsState where
  tempExists : Bool
deriving DecidableEq

/-- `writeFile(filepath, code)` creates the temp file. -/
def writeTempFS (_ : FsState) : FsState := ⟨true⟩

/-- `unlink(filepath).catch(() => {})` in the `finally` block removes it
(errors swallowed; on the environment's contract, unlinking an existing temp
file succeeds). -/
def unlinkTempFS (_ : FsState) : FsState := ⟨false⟩

/-- Model of `runCode` (lines 47–85): the returned record paired with the
final file-system state.  The `finally` clause runs on every path, so the
unlink is applied unconditionally after the body. -/
def runCodeModel (code : String) (lang : Lang) (o : ExecOutcome) : CodeRunResult × FsState :=
  let fs0 : FsState := ⟨false⟩
  let fs1 := writeTempFS fs0
  let result : CodeRunResult :=
    match o with
    | .ok out errOut =>
      { exitCode := 0
        stdout := jsTrim out
        stderr := jsTrim errOut
        language := langString lang }
    | .failed e =>
      { exitCode := match e.code with | some n => n | none => 1
        stdout := match e.stdout with | some s => jsTrim s | none => ""
        stderr :=
          if e.killed then "Process timed out after 10 seconds"
          else match e.stderr with | some s => jsTrim s | none => e.asString
        language := langString lang }
  (result, unlinkTempFS fs1)

/-- Model of `formatCodeResult` (lines 91–96): JS string truthiness means a
section is included exactly when the string is nonempty. -/
def formatCodeResult (r : CodeRunResult) : String :=
  String.intercalate "\n"
    (["Exit code: " ++ toString r.exitCode]
      ++ (if r.stdout.isEmpty then [] else ["\nOutput:\n" ++ r.stdout])
      ++ (if r.stderr.isEmpty then [] else ["\nErrors:\n" ++ r.stderr]))

/-! ### The `/api/chat` agentic loop (the two-tool `server.ts`) -/

inductive Role where
  | user
  | assistant
deriving DecidableEq

/-- The untyped `input` object of a tool-use block, with the fields the two
executors project out of it (`{url}` for fetch_url, `{code, language}` for
run_code). -/
structure ToolInput where
  url : String
  code : String
  language : Lang
deriving DecidableEq

inductive ContentBlock where
  | text (t : String)
  | tool_use (id : String) (name : String) (input : ToolInput)
deriving DecidableEq

structure ToolResultBlock where
  tool_use_id : String
  content : String
deriving DecidableEq

inductive MessageContent where
  | text (s : String)
  | blocks (bs : List ContentBlock)
  | results (rs : List ToolResultBlock)
deriving DecidableEq

structure MessageParam where
  role : Role
  content : MessageContent
deriving DecidableEq

inductive StopReason where
  | end_turn
  | tool_use
  | other (s : String)
deriving DecidableEq

/-- What `stream.finalMessage()` resolves to, together with the text deltas
the stream yielded on the way. -/
structure ModelResponse where
  deltas : List String
  stop_reason : StopReason
  content : List ContentBlock
deriving DecidableEq

/-- One scripted reply of the model capability: either a completed round, or
a throw after emitting some deltas (network failure, provider error, …). -/
inductive ModelStep where
  | ok (r : ModelResponse)
  | err (deltas : List String) (msg : String)
deriving DecidableEq

/-- The SSE event union written by `send` (plus the terminal pair). -/
inductive StreamEvent where
  | text (t : String)
  | tool_call (tool : String) (input : ToolInput)
  | tool_result (tool : String) (meta : Option CodeRunResult)
  | done
  | error (msg : String)
deriving DecidableEq

def isTerminal : StreamEvent → Bool
  | .done => true
  | .error _ => true
  | _ => false

/-- The external world the tool executors touch: the network and the child
process runner. -/
structure Env where
  fetch : String → FetchOutcome
  run : String → Lang → ExecOutcome

structure ToolExecResult where
  content : String
  meta : Option CodeRunResult
deriving DecidableEq

/-- Model of `executeTool` (two-tool server, lines 45–61). -/
def executeTool (env : Env) (name : String) (input : ToolInput) : ToolExecResult :=
  if name = "fetch_url" then
    { content := fetchUrlModel (env.fetch input.url), meta := none }
  else if name = "run_code" then
    let r := (runCodeModel input.code input.language (env.run input.code input.language)).1
    { content := formatCodeResult r, meta := some r }
  else
    { content := "Unknown tool: " ++ name, meta := none }

/-- The `for (const block of response.content)` body (lines 141–157): skip
non-tool_use blocks; for each tool_use in order emit `tool_call`, execute,
emit `tool_result`, and push the result block. -/
def runToolBlocks (env : Env) : List ContentBlock → List StreamEvent × List ToolResultBlock
  | [] => ([], [])
  | .text _ :: rest => runToolBlocks env rest
  | .tool_use id name input :: rest =>
    let res := executeTool env name input
    let (evs, trs) := runToolBlocks env rest
    (.tool_call name input :: .tool_result name res.meta :: evs,
      ⟨id, res.content⟩ :: trs)

/-- One `stop_reason == 'tool_use'` round (lines 136–160): append the
assistant turn, run the blocks, append the synthesized user turn. -/
def toolRound (env : Env) (hist : List MessageParam) (content : List ContentBlock) :
    List StreamEvent × List MessageParam :=
  let hist1 := hist ++ [⟨.assistant, .blocks content⟩]
  let (evs, trs) := runToolBlocks env content
  (evs, hist1 ++ [⟨.user, .results trs⟩])

/-- Model of the `while (true)` agentic loop plus the surrounding
`try`/`catch` (lines 96–170), driven by the scripted model capability.  The
result is the full ordered list of SSE events; `none` means the script ended
while the loop still wanted another model call (no completed session to
observe). -/
def agentLoop (env : Env) : List ModelStep → List MessageParam → Option (List StreamEvent)
  | [], _ => none
  | .err ds m :: _, _ => some (ds.map .text ++ [.error m])
  | .ok r :: restScript, hist =>
    let textEvs := r.deltas.map StreamEvent.text
    match r.stop_reason with
    | .end_turn => some (textEvs ++ [.done])
    | .other _ => some (textEvs ++ [.done])
    | .tool_use =>
      let (toolEvs, hist2) := toolRound env hist r.content
      (agentLoop env restScript hist2).map fun evs => textEvs ++ toolEvs ++ evs

/-- Request body of POST `/api/chat` (lines 69–73); `none` models an absent
field. -/
structure ChatMsg where
  role : Role
  content : String
deriving DecidableEq

structure ChatBody where
  messages : Option (List ChatMsg)
  model : Option String
  system : Option String
deriving DecidableEq

/-- `MODELS.map(m => m.id)` (lines 17–23). -/
def validModelIds : List String :=
  ["claude-opus-4-6", "claude-sonnet-4-6", "claude-haiku-4-5"]

def defaultModel : String := "claude-opus-4-6"

/-- Observable outcome of the request handler: a pre-stream structured
rejection (status + error payload), or the opened event stream. -/
inductive ChatResponse where
  | badRequest (status : Nat) (error : String)
  | stream (events : Option (List StreamEvent))
deriving DecidableEq

/-- Model of the `/api/chat` handler (lines 75–173): destructure with the
model default, validate `messages` then `model` before any streaming, then
run the agentic loop over the text-only history. -/
def handleChat (env : Env) (script : List ModelStep) (body : ChatBody) : ChatResponse :=
  let model := body.model.getD defaultModel
  match body.messages with
  | none => .badRequest 400 "messages array is required"
  | some msgs =>
    if msgs.isEmpty then .badRequest 400 "messages array is required"
    else if !validModelIds.contains model then .badRequest 400 ("Invalid model: " ++ model)
    else .stream (agentLoop env script (msgs.map fun m => ⟨m.role, .text m.content⟩))

/-- The tool_use blocks of a response's content, in order, as
(id, name, input) triples. -/
def toolUseBlocks (bs : List ContentBlock) : List (String × String × ToolInput) :=
  bs.filterMap fun b =>
    match b with
    | .tool_use id name input => some (id, name, input)
    | .text _ => none

/-- A concrete environment used to instantiate universally quantified
statements: every fetch aborts on the timer, every child run succeeds with
empty output. -/
def envTimeout : Env :=
  { fetch := fun _ => .timeout, run := fun _ _ => .ok "" "" }

/-- A concrete one-round script: the model streams one fragment and stops
with `end_turn`. -/
def scriptHi : List ModelStep :=
  [.ok { deltas := ["hi"], stop_reason := .end_turn, content := [] }]

end SudChat

namespace SudChat

/-! ## Supporting lemmas -/

theorem replAux_of_occurs_false (pat rep : List Char) :
    ∀ fuel s, s.length ≤ fuel → occurs pat s = false → replAux pat rep fuel s = s := by
  intro fuel
  induction fuel with
  | zero =>
    intro s hlen _
    have hs : s = [] := List.eq_nil_of_length_eq_zero (Nat.le_zero.mp hlen)
    subst hs
    rfl
  | succ n ih =>
    intro s hlen hocc
    match s with
    | [] => rfl
    | c :: rest =>
      have hsplit : isPrefixOfCL pat (c :: rest) = false ∧ occurs pat rest = false := by
        simpa [occurs] using hocc
      simp only [replAux, hsplit.1, Bool.and_false]
      rw [ih rest (Nat.le_of_succ_le_succ (by simpa using hlen)) hsplit.2]
      simp

theorem replaceAllCL_of_occurs_false {pat rep s : List Char}
    (h : occurs pat s = false) : replaceAllCL pat rep s = s :=
  replAux_of_occurs_false pat rep s.length s (Nat.le_refl _) h

theorem decodeEntitiesCL_fixed {l : List Char}
    (h : containsEntity l = false) : decodeEntitiesCL l = l := by
  have hs := h
  simp only [containsEntity, Bool.or_eq_false_iff] at hs
  obtain ⟨⟨⟨⟨⟨h1, h2⟩, h3⟩, h4⟩, h5⟩, h6⟩ := hs
  unfold decodeEntitiesCL
  rw [replaceAllCL_of_occurs_false h1, replaceAllCL_of_occurs_false h2,
    replaceAllCL_of_occurs_false h3, replaceAllCL_of_occurs_false h4,
    replaceAllCL_of_occurs_false h5, replaceAllCL_of_occurs_false h6]

theorem dropWhile_isWsJS_replicate (n : Nat) :
    List.dropWhile isWsJS (List.replicate n 'a') = List.replicate n 'a' := by
  cases n with
  | zero => rfl
  | succ m =>
    rw [List.replicate_succ, List.dropWhile_cons]
    have ha : isWsJS 'a' = false := by decide
    simp [ha]

theorem trimCL_replicate (n : Nat) :
    trimCL (List.replicate n 'a') = List.replicate n 'a' := by
  unfold trimCL
  rw [dropWhile_isWsJS_replicate, List.reverse_replicate, dropWhile_isWsJS_replicate,
    List.reverse_replicate]

theorem extractChars_empty_ct_replicate (n : Nat) :
    extractChars "" (String.mk (List.replicate n 'a')) = List.replicate n 'a' := by
  unfold extractChars
  have h : occurs htmlCT ("" : String).toList = false := by decide
  rw [h]
  simpa using trimCL_replicate n

theorem runToolBlocks_snd (env : Env) :
    ∀ bs, (runToolBlocks env bs).2 =
      (toolUseBlocks bs).map fun x =>
        ⟨x.1, (executeTool env x.2.1 x.2.2).content⟩ := by
  intro bs
  induction bs with
  | nil => rfl
  | cons b rest ih =>
    cases b with
    | text t =>
      show (runToolBlocks env rest).2 = _
      rw [ih]
      rfl
    | tool_use id name input =>
      cases hr : runToolBlocks env rest with
      | mk evs trs =>
        rw [hr] at ih
        simp only [runToolBlocks, hr, toolUseBlocks, List.filterMap_cons]
        simp only [toolUseBlocks] at ih
        simp [ih]

theorem runToolBlocks_events_not_terminal (env : Env) :
    ∀ bs e, e ∈ (runToolBlocks env bs).1 → isTerminal e = false := by
  intro bs
  induction bs with
  | nil =>
    intro e h
    exact absurd h (List.not_mem_nil e)
  | cons b rest ih =>
    cases b with
    | text t =>
      intro e h
      exact ih e h
    | tool_use id name input =>
      cases hr : runToolBlocks env rest with
      | mk evs trs =>
        intro e h
        simp only [runToolBlocks, hr] at h
        rcases List.mem_cons.mp h with h1 | h2
        · rw [h1]; rfl
        · rcases List.mem_cons.mp h2 with h3 | h4
          · rw [h3]; rfl
          · exact ih e (by rw [hr]; exact h4)

theorem agentLoop_terminal_aux (env : Env) :
    ∀ script hist evs, agentLoop env script hist = some evs →
      ∃ pre t, evs = pre ++ [t] ∧ isTerminal t = true ∧
        ∀ e ∈ pre, isTerminal e = false := by
  intro script
  induction script with
  | nil =>
    intro hist evs h
    exact absurd h (by simp [agentLoop])
  | cons step rest ih =>
    intro hist evs h
    cases step with
    | err ds m =>
      simp only [agentLoop, Option.some.injEq] at h
      refine ⟨ds.map StreamEvent.text, .error m, h.symm, rfl, ?_⟩
      intro e he
      obtain ⟨d, -, hd⟩ := List.mem_map.mp he
      rw [← hd]
      rfl
    | ok r =>
      cases hsr : r.stop_reason with
      | end_turn =>
        simp only [agentLoop, hsr, Option.some.injEq] at h
        refine ⟨r.deltas.map StreamEvent.text, .done, h.symm, rfl, ?_⟩
        intro e he
        obtain ⟨d, -, hd⟩ := List.mem_map.mp he
        rw [← hd]
        rfl
      | other s =>
        simp only [agentLoop, hsr, Option.some.injEq] at h
        refine ⟨r.deltas.map StreamEvent.text, .done, h.symm, rfl, ?_⟩
        intro e he
        obtain ⟨d, -, hd⟩ := List.mem_map.mp he
        rw [← hd]
        rfl
      | tool_use =>
        cases hrb : runToolBlocks env r.content with
        | mk tevs trs =>
          simp only [agentLoop, hsr, toolRound, hrb] at h
          obtain ⟨evs', hrec, heq⟩ := Option.map_eq_some'.mp h
          obtain ⟨pre, t, hpe, htt, hpre⟩ := ih _ evs' hrec
          refine ⟨r.deltas.map StreamEvent.text ++ (tevs ++ pre), t, ?_, htt, ?_⟩
          · rw [← heq, hpe]
            simp [List.append_assoc]
          · intro e he
            rcases List.mem_append.mp he with h1 | h2
            · obtain ⟨d, -, hd⟩ := List.mem_map.mp h1
              rw [← hd]
              rfl
            · rcases List.mem_append.mp h2 with h3 | h4
              · exact runToolBlocks_events_not_terminal env r.content e (by rw [hrb]; exact h3)
              · exact hpre e h4

/-! ## Claim theorems -/

/-- C3: `fetchUrl` never throws to its caller; every outcome is rendered as a
plain string: timeout → the fixed timeout message, any other thrown `Error` →
`"Error fetching URL: <message>"`, a non-2xx response → `"Error: HTTP <code>
<reason>"`, and an empty extracted text → the fixed no-content sentinel.
(`fetchUrlModel` is a total function of the fetch outcome, so no outcome
escapes as an exception.) -/
theorem fetchUrl_never_throws :
    fetchUrlModel .timeout = "Error: Request timed out after 10 seconds." ∧
    (∀ msg, fetchUrlModel (.failure msg) = "Error fetching URL: " ++ msg) ∧
    (∀ status statusText ct body, ¬(200 ≤ status ∧ status ≤ 299) →
      fetchUrlModel (.success status statusText ct body) =
        "Error: HTTP " ++ toString status ++ " " ++ statusText) ∧
    (∀ status statusText ct body, 200 ≤ status → status ≤ 299 →
      extractChars ct body = [] →
      fetchUrlModel (.success status statusText ct body) = noContentSentinel) := by
  refine ⟨rfl, fun msg => rfl, ?_, ?_⟩
  · intro status statusText ct body h
    simp only [fetchUrlModel]
    rw [if_neg h]
  · intro status statusText ct body h1 h2 he
    simp only [fetchUrlModel]
    rw [if_pos ⟨h1, h2⟩]
    simp [he]

/-- Witness for C3 at concrete outcomes. -/
theorem fetchUrl_never_throws_witness :
    fetchUrlModel (.failure "getaddrinfo ENOTFOUND") =
      "Error fetching URL: getaddrinfo ENOTFOUND" ∧
    ¬(200 ≤ 404 ∧ 404 ≤ 299) ∧
    fetchUrlModel (.success 404 "Not Found" "" "") =
      "Error: HTTP " ++ toString 404 ++ " " ++ "Not Found" ∧
    extractChars "" "" = [] ∧
    fetchUrlModel (.success 200 "OK" "" "") = noContentSentinel :=
  ⟨fetchUrl_never_throws.2.1 _, by decide,
   fetchUrl_never_throws.2.2.1 404 "Not Found" "" "" (by decide),
   by decide,
   fetchUrl_never_throws.2.2.2 200 "OK" "" "" (by decide) (by decide) (by decide)⟩

/-- C4: on every outcome of the child-process run (success, non-zero exit,
timeout kill, spawn failure) the `finally` clause unlinks the temporary file,
so the final file-system state has the temp file absent. -/
theorem runCode_temp_file_removed :
    ∀ code lang o, ((runCodeModel code lang o).2).tempExists = false := by
  intro code lang o
  rfl

/-- C5: whenever the child process was killed by the 10-second timeout
(`e.killed`), the returned record has the fixed timeout sentinel as `stderr`
and takes `exitCode` from the process exit code when Node supplies a numeric
one, else the sentinel `1`; the outcome is an ordinary returned value of
`runCodeModel`, not a failure. -/
theorem runCode_timeout_result :
    ∀ code lang (e : ExecErr), e.killed = true →
      (runCodeModel code lang (.failed e)).1.stderr = "Process timed out after 10 seconds" ∧
      (runCodeModel code lang (.failed e)).1.exitCode = e.code.getD 1 := by
  intro code lang e hk
  refine ⟨?_, ?_⟩
  · simp [runCodeModel, hk]
  · cases hc : e.code <;> simp [runCodeModel, hc]

/-- Witness for C5: a timeout kill with no numeric exit code. -/
theorem runCode_timeout_result_witness :
    (⟨none, none, none, true, "Error: killed"⟩ : ExecErr).killed = true ∧
    (runCodeModel "while True: pass" .python
        (.failed ⟨none, none, none, true, "Error: killed"⟩)).1.stderr =
      "Process timed out after 10 seconds" ∧
    (runCodeModel "while True: pass" .python
        (.failed ⟨none, none, none, true, "Error: killed"⟩)).1.exitCode =
      (none : Option Int).getD 1 :=
  ⟨rfl,
   (runCode_timeout_result "while True: pass" .python _ rfl).1,
   (runCode_timeout_result "while True: pass" .python _ rfl).2⟩

/-- C6: for every 2xx response, the returned string is the extracted content
unchanged (hence at most 50,000 characters, with no marker) when the content
fits, and exactly the first 50,000 characters of the content followed by the
fixed truncation marker when it does not. -/
theorem fetchUrl_truncation :
    ∀ status statusText ct body, 200 ≤ status → status ≤ 299 →
      (¬((extractChars ct body).length > 50000) →
        fetchUrlModel (.success status statusText ct body) =
          (if (extractChars ct body).isEmpty then noContentSentinel
            else String.mk (extractChars ct body)) ∧
        (fetchUrlModel (.success status statusText ct body)).length ≤ 50000) ∧
      ((extractChars ct body).length > 50000 →
        fetchUrlModel (.success status statusText ct body) =
          String.mk ((extractChars ct body).take 50000 ++ truncMarker) ∧
        (fetchUrlModel (.success status statusText ct body)).length =
          50000 + truncMarker.length) := by
  intro status statusText ct body h1 h2
  constructor
  · intro hle
    have heq : fetchUrlModel (.success status statusText ct body) =
        (if (extractChars ct body).isEmpty then noContentSentinel
          else String.mk (extractChars ct body)) := by
      simp only [fetchUrlModel]
      rw [if_pos ⟨h1, h2⟩, if_neg hle]
    refine ⟨heq, ?_⟩
    rw [heq]
    by_cases hemp : (extractChars ct body).isEmpty
    · rw [if_pos hemp]
      decide
    · rw [if_neg hemp]
      show (extractChars ct body).length ≤ 50000
      omega
  · intro hgt
    have heq : fetchUrlModel (.success status statusText ct body) =
        String.mk ((extractChars ct body).take 50000 ++ truncMarker) := by
      simp only [fetchUrlModel]
      rw [if_pos ⟨h1, h2⟩, if_pos hgt]
      have hne : ((extractChars ct body).take 50000 ++ truncMarker).isEmpty = false := by
        cases h : (extractChars ct body).take 50000 ++ truncMarker with
        | nil => exact absurd (List.append_eq_nil.mp h).2 (by decide)
        | cons a l => rfl
      rw [hne]
      exact if_neg (by decide)
    refine ⟨heq, ?_⟩
    rw [heq]
    show ((extractChars ct body).take 50000 ++ truncMarker).length = 50000 + truncMarker.length
    rw [List.length_append, List.length_take, Nat.min_eq_left (Nat.le_of_lt hgt)]

/-- Witness for C6: a 3-character plain body is returned unchanged; a
50,001-character body is cut at 50,000 characters and the marker appended. -/
theorem fetchUrl_truncation_witness :
    ¬((extractChars "" "abc").length > 50000) ∧
    fetchUrlModel (.success 200 "OK" "" "abc") =
      (if (extractChars "" "abc").isEmpty then noContentSentinel
        else String.mk (extractChars "" "abc")) ∧
    (extractChars "" (String.mk (List.replicate 50001 'a'))).length > 50000 ∧
    fetchUrlModel (.success 200 "OK" "" (String.mk (List.replicate 50001 'a'))) =
      String.mk
        ((extractChars "" (String.mk (List.replicate 50001 'a'))).take 50000 ++ truncMarker) := by
  have hbig : (extractChars "" (String.mk (List.replicate 50001 'a'))).length > 50000 := by
    rw [extractChars_empty_ct_replicate, List.length_replicate]
    decide
  refine ⟨by decide, ?_, hbig, ?_⟩
  · exact ((fetchUrl_truncation 200 "OK" "" "abc" (by decide) (by decide)).1 (by decide)).1
  · exact ((fetchUrl_truncation 200 "OK" "" (String.mk (List.replicate 50001 'a'))
      (by decide) (by decide)).2 hbig).1

/-- C7 counterexample: the sequential entity decoding is not idempotent on
every string — the double-encoded ampersand `"&amp;amp;"` decodes to
`"&amp;"`, which decodes again to `"&"`. -/
theorem decode_not_idempotent :
    decodeEntities (decodeEntities "&amp;amp;") ≠ decodeEntities "&amp;amp;" := by
  decide

/-- C7 (amended): the entity decoding is idempotent on every string whose
decoded form contains none of the six entity byte sequences (in particular on
already-decoded text). -/
theorem decode_idempotent_on_entity_free :
    ∀ s : String, containsEntity (decodeEntitiesCL s.toList) = false →
      decodeEntities (decodeEntities s) = decodeEntities s := by
  intro s h
  show String.mk (decodeEntitiesCL (decodeEntitiesCL s.toList)) =
    String.mk (decodeEntitiesCL s.toList)
  rw [decodeEntitiesCL_fixed h]

/-- Witness for C7 (amended) on a concrete encoded string whose decoding is
entity-free. -/
theorem decode_idempotent_witness :
    containsEntity (decodeEntitiesCL ("a&amp;b" : String).toList) = false ∧
    decodeEntities (decodeEntities "a&amp;b") = decodeEntities "a&amp;b" :=
  ⟨by decide, decode_idempotent_on_entity_free "a&amp;b" (by decide)⟩

/-- C9 counterexample: a non-HTML body is not returned byte-for-byte — the
plain-text body `" x "` comes back as `"x"`, i.e. leading/trailing whitespace
is trimmed. -/
theorem nonhtml_passthrough_counterexample :
    fetchUrlModel (.success 200 "OK" "text/plain" " x ") = "x" ∧
    fetchUrlModel (.success 200 "OK" "text/plain" " x ") ≠ " x " := by
  decide

/-- C9 (amended): for a successful non-HTML response the extracted content is
exactly the body trimmed of leading/trailing whitespace — no tag stripping,
entity decoding, or internal whitespace collapsing — and a body that is
already trimmed, nonempty, and within the 50,000-character cap is returned
verbatim. -/
theorem fetchUrl_nonhtml_trimmed_passthrough :
    ∀ status statusText ct body, 200 ≤ status → status ≤ 299 →
      occurs htmlCT ct.toList = false →
      extractChars ct body = trimCL body.toList ∧
      (trimCL body.toList = body.toList → ¬(body.toList.length > 50000) → body ≠ "" →
        fetchUrlModel (.success status statusText ct body) = body) := by
  intro status statusText ct body h1 h2 hct
  have hex : extractChars ct body = trimCL body.toList := by
    unfold extractChars
    rw [hct]
    simp
  refine ⟨hex, ?_⟩
  intro ht hlen hne
  simp only [fetchUrlModel]
  rw [if_pos ⟨h1, h2⟩]
  have hc : extractChars ct body = body.toList := by rw [hex, ht]
  rw [hc]
  rw [if_neg hlen]
  have hnil : body.toList ≠ [] := by
    intro hn
    exact hne (String.ext hn)
  have hemp : (body.toList).isEmpty = false := by
    simpa [List.isEmpty_iff] using hnil
  rw [hemp]
  simp

/-- Witness for C9 (amended) on a concrete plain-text response. -/
theorem fetchUrl_nonhtml_witness :
    occurs htmlCT ("text/plain" : String).toList = false ∧
    extractChars "text/plain" "hello" = trimCL ("hello" : String).toList ∧
    fetchUrlModel (.success 200 "OK" "text/plain" "hello") = "hello" :=
  ⟨by decide,
   (fetchUrl_nonhtml_trimmed_passthrough 200 "OK" "text/plain" "hello"
      (by decide) (by decide) (by decide)).1,
   (fetchUrl_nonhtml_trimmed_passthrough 200 "OK" "text/plain" "hello"
      (by decide) (by decide) (by decide)).2 (by decide) (by decide) (by decide)⟩

/-- C10 counterexample: on a timeout kill the returned `stderr` is the fixed
sentinel, not the trimmed captured stderr of the process. -/
theorem runCode_stderr_counterexample :
    (runCodeModel "while True: pass" .python
        (.failed ⟨some " out ", some " boom ", none, true, "Error: killed"⟩)).1.stderr =
      "Process timed out after 10 seconds" ∧
    (runCodeModel "while True: pass" .python
        (.failed ⟨some " out ", some " boom ", none, true, "Error: killed"⟩)).1.stderr ≠
      jsTrim " boom " := by
  constructor
  · rfl
  · decide

/-- C10 (amended): `runCodeModel` is total at its interface — every outcome
yields a record; the `language` field always equals the input language;
`exitCode` is `0` exactly on a successful run (given Node's contract that a
rejected exec never carries the numeric code `0`); `stdout` is always the
trimmed captured stdout (empty when absent); `stderr` is the trimmed captured
stderr on success and on non-timeout failures that captured stderr (else the
error's string form), while a timeout kill sets the fixed sentinel instead. -/
theorem runCode_interface_total :
    ∀ code lang o, (∀ e, o = ExecOutcome.failed e → e.code ≠ some 0) →
      ((runCodeModel code lang o).1.language = langString lang ∧
       ((runCodeModel code lang o).1.exitCode = 0 ↔ ∃ out errOut, o = .ok out errOut) ∧
       (∀ out errOut, o = .ok out errOut →
         (runCodeModel code lang o).1.stdout = jsTrim out ∧
         (runCodeModel code lang o).1.stderr = jsTrim errOut) ∧
       (∀ e, o = .failed e →
         (runCodeModel code lang o).1.stdout = (e.stdout.map jsTrim).getD "" ∧
         (e.killed = true →
           (runCodeModel code lang o).1.stderr = "Process timed out after 10 seconds") ∧
         (e.killed = false →
           (runCodeModel code lang o).1.stderr = (e.stderr.map jsTrim).getD e.asString))) := by
  intro code lang o hcode
  cases o with
  | ok out errOut =>
    refine ⟨rfl, ?_, ?_, ?_⟩
    · exact ⟨fun _ => ⟨out, errOut, rfl⟩, fun _ => rfl⟩
    · intro out' errOut' h
      cases h
      exact ⟨rfl, rfl⟩
    · intro e h
      exact absurd h (by simp)
  | failed e =>
    refine ⟨rfl, ?_, ?_, ?_⟩
    · have hne : e.code ≠ some 0 := hcode e rfl
      have hx : (runCodeModel code lang (.failed e)).1.exitCode =
          (match e.code with | some n => n | none => 1) := rfl
      constructor
      · intro h0
        rw [hx] at h0
        exfalso
        cases hc : e.code with
        | none => rw [hc] at h0; exact absurd h0 (by decide)
        | some n =>
          rw [hc] at h0
          simp at h0
          exact hne (by rw [hc, h0])
      · rintro ⟨out, errOut, h⟩
        exact absurd h (by simp)
    · intro out errOut h
      exact absurd h (by simp)
    · intro e' h
      cases h
      refine ⟨?_, ?_, ?_⟩
      · cases hs : e.stdout <;> simp [runCodeModel, hs]
      · intro hk
        simp [runCodeModel, hk]
      · intro hk
        cases hs : e.stderr <;> simp [runCodeModel, hk, hs]

/-- C1: in every tool-use round the loop appends to the history exactly one
assistant turn carrying the response content followed immediately by exactly
one synthesized user turn whose tool results are, in order, one per tool-use
request of the round: the correlation ids line up 1:1 with the request ids,
the result count equals the request count, and the results are exactly the
executor outputs of the requests in request order. -/
theorem toolRound_appends_matched_results :
    ∀ env hist bs,
      (toolRound env hist bs).2 =
        hist ++ [⟨.assistant, .blocks bs⟩, ⟨.user, .results (runToolBlocks env bs).2⟩] ∧
      ((runToolBlocks env bs).2).map ToolResultBlock.tool_use_id =
        (toolUseBlocks bs).map (fun x => x.1) ∧
      ((runToolBlocks env bs).2).length = (toolUseBlocks bs).length ∧
      (runToolBlocks env bs).2 =
        (toolUseBlocks bs).map
          (fun x => ⟨x.1, (executeTool env x.2.1 x.2.2).content⟩) := by
  intro env hist bs
  have hsnd := runToolBlocks_snd env bs
  refine ⟨?_, ?_, ?_, hsnd⟩
  · cases hr : runToolBlocks env bs with
    | mk evs trs =>
      simp only [toolRound, hr]
      simp
  · rw [hsnd, List.map_map]
    rfl
  · rw [hsnd, List.length_map]

/-- C2: every completed chat-session stream ends with exactly one terminal
event (`done` or `error`) which is its last event — no text or tool event
follows it; an unexpected stop reason terminates the session with `done` and
no error, and a throw of the model capability terminates it with an `error`
event carrying the underlying message. -/
theorem chat_stream_single_terminal :
    (∀ env script hist evs, agentLoop env script hist = some evs →
      ∃ pre t, evs = pre ++ [t] ∧ isTerminal t = true ∧
        ∀ e ∈ pre, isTerminal e = false) ∧
    (∀ env (r : ModelResponse) s rest hist, r.stop_reason = .other s →
      agentLoop env (.ok r :: rest) hist =
        some (r.deltas.map StreamEvent.text ++ [.done])) ∧
    (∀ env ds m rest hist,
      agentLoop env (.err ds m :: rest) hist =
        some (ds.map StreamEvent.text ++ [.error m])) := by
  refine ⟨fun env => agentLoop_terminal_aux env, ?_, ?_⟩
  · intro env r s rest hist hsr
    simp [agentLoop, hsr]
  · intro env ds m rest hist
    rfl

/-- Witness for C2: a one-round session that streams "hi" and stops. -/
theorem chat_stream_single_terminal_witness :
    agentLoop envTimeout scriptHi [] = some [StreamEvent.text "hi", StreamEvent.done] ∧
    (∃ pre t, [StreamEvent.text "hi", StreamEvent.done] = pre ++ [t] ∧
      isTerminal t = true ∧ ∀ e ∈ pre, isTerminal e = false) ∧
    ({ deltas := [], stop_reason := .other "max_tokens", content := [] } :
        ModelResponse).stop_reason = .other "max_tokens" ∧
    agentLoop envTimeout
        [.ok { deltas := [], stop_reason := .other "max_tokens", content := [] }] [] =
      some (([] : List String).map StreamEvent.text ++ [.done]) := by
  refine ⟨rfl, ?_, rfl, ?_⟩
  · exact chat_stream_single_terminal.1 envTimeout scriptHi [] _ rfl
  · exact chat_stream_single_terminal.2.1 envTimeout _ "max_tokens" [] [] rfl

/-- C8: a missing or empty `messages` array, and a model identifier outside
the allow-list, are each rejected with a structured HTTP 400 error before any
stream is opened (the handler result is a `badRequest`, not a `stream`); an
absent `model` field defaults to `claude-opus-4-6`, which is allow-listed, and
the request then proceeds to the stream. -/
theorem chat_validation :
    defaultModel = "claude-opus-4-6" ∧
    validModelIds.contains defaultModel = true ∧
    ∀ env script body,
      ((body.messages = none ∨ body.messages = some []) →
        handleChat env script body = .badRequest 400 "messages array is required") ∧
      (∀ msgs m, body.messages = some msgs → msgs ≠ [] → body.model = some m →
        validModelIds.contains m = false →
        handleChat env script body = .badRequest 400 ("Invalid model: " ++ m)) ∧
      (∀ msgs, body.messages = some msgs → msgs ≠ [] → body.model = none →
        handleChat env script body =
          .stream (agentLoop env script
            (msgs.map fun mm => ⟨mm.role, .text mm.content⟩))) := by
  refine ⟨rfl, by decide, ?_⟩
  intro env script body
  refine ⟨?_, ?_, ?_⟩
  · rintro (hm | hm) <;> simp [handleChat, hm]
  · intro msgs m hmsgs hne hmodel hcontains
    have hemp : msgs.isEmpty = false := by
      cases msgs with
      | nil => exact absurd rfl hne
      | cons a l => rfl
    simp [handleChat, hmsgs, hmodel, hemp]
    simpa using hcontains
  · intro msgs hmsgs hne hmodel
    have hemp : msgs.isEmpty = false := by
      cases msgs with
      | nil => exact absurd rfl hne
      | cons a l => rfl
    simp [handleChat, hmsgs, hmodel, hemp, defaultModel, validModelIds]

/-- Witness for C8 at concrete request bodies. -/
theorem chat_validation_witness :
    handleChat envTimeout scriptHi ⟨none, none, none⟩ =
      .badRequest 400 "messages array is required" ∧
    handleChat envTimeout scriptHi ⟨some [], none, none⟩ =
      .badRequest 400 "messages array is required" ∧
    validModelIds.contains "gpt-4" = false ∧
    handleChat envTimeout scriptHi ⟨some [⟨.user, "hi"⟩], some "gpt-4", none⟩ =
      .badRequest 400 ("Invalid model: " ++ "gpt-4") ∧
    handleChat envTimeout scriptHi ⟨some [⟨.user, "hi"⟩], none, none⟩ =
      .stream (agentLoop envTimeout scriptHi
        (([⟨.user, "hi"⟩] : List ChatMsg).map fun mm => ⟨mm.role, .text mm.content⟩)) := by
  refine ⟨?_, ?_, by decide, ?_, ?_⟩
  · exact (chat_validation.2.2 envTimeout scriptHi ⟨none, none, none⟩).1 (Or.inl rfl)
  · exact (chat_validation.2.2 envTimeout scriptHi ⟨some [], none, none⟩).1 (Or.inr rfl)
  · exact (chat_validation.2.2 envTimeout scriptHi
      ⟨some [⟨.user, "hi"⟩], some "gpt-4", none⟩).2.1 [⟨.user, "hi"⟩] "gpt-4" rfl
      (by simp) rfl (by decide)
  · exact (chat_validation.2.2 envTimeout scriptHi
      ⟨some [⟨.user, "hi"⟩], none, none⟩).2.2 [⟨.user, "hi"⟩] rfl (by simp) rfl

/-- Witness for C10 (amended) on a successful run with untrimmed output. -/
theorem runCode_interface_total_witness :
    (∀ e, (ExecOutcome.ok " a " "") = ExecOutcome.failed e → e.code ≠ some 0) ∧
    (runCodeModel "print(1)" .python (.ok " a " "")).1.language = langString .python ∧
    ((runCodeModel "print(1)" .python (.ok " a " "")).1.exitCode = 0 ↔
      ∃ out errOut, (ExecOutcome.ok " a " "") = ExecOutcome.ok out errOut) ∧
    (runCodeModel "print(1)" .python (.ok " a " "")).1.stdout = jsTrim " a " ∧
    (runCodeModel "print(1)" .python (.ok " a " "")).1.stderr = jsTrim "" := by
  have hv : ∀ e, (ExecOutcome.ok " a " "") = ExecOutcome.failed e → e.code ≠ some 0 := by
    intro e h
    exact absurd h (by simp)
  have h := runCode_interface_total "print(1)" .python (.ok " a " "") hv
  exact ⟨hv, h.1, h.2.1, (h.2.2.1 " a " "" rfl).1, (h.2.2.1 " a " "" rfl).2⟩

end SudChat
